import Mathlib

/-!
Verification development for the document-ingestion pipeline
(`src/llamastack/docling-pipeline.py`).

The pipeline's components are shallowly embedded as executable Lean
functions, translated from the Python source:

* `create_pdf_splits`   — the Partitioner (round-robin splitting).
* `register_vector_db`  — the Collection Registrar.
* `docling_convert`     — the Conversion-Chunk-Embed Worker.
* `PTask`/`directDep`   — the Orchestrator's task-dependency graph.

External collaborators (the docling converter, the chunker, the
sentence-transformer embedder, the vector store) are passed in as
explicit function parameters or modelled from their documented
semantics where noted.
-/

/-! ## Partitioner: `create_pdf_splits` (lines 90-109)

Python:
```
splits = [
    batch for batch in (all_pdfs[i::num_splits] for i in range(num_splits)) if batch
]
return splits or [[]]
```
-/

/-- Python extended slicing `l[c::k]` for a positive step `k`:
counting down from `c`, take the element when the countdown reaches 0,
then restart the countdown at `k - 1`.  `pySliceAux k l c` is
`l[c::k]`, i.e. the elements at indices `c, c+k, c+2k, …`. -/
def pySliceAux (k : Nat) : List α → Nat → List α
  | [], _ => []
  | x :: xs, 0 => x :: pySliceAux k xs (k - 1)
  | _ :: xs, c + 1 => pySliceAux k xs c

/-- `create_pdf_splits` from the source: round-robin batches
`all_pdfs[i::num_splits]` for `i in range(num_splits)`, empty batches
filtered out (`if batch`), and the Python fallback `splits or [[]]`.
`num_splits` is a Python `int`, so it is embedded as `Int`;
`range(num_splits)` is empty when `num_splits ≤ 0`, which is exactly
`List.range num_splits.toNat`. -/
def create_pdf_splits (all_pdfs : List String) (num_splits : Int) : List (List String) :=
  let splits := ((List.range num_splits.toNat).map
      (fun i => pySliceAux num_splits.toNat all_pdfs i)).filter (fun b => !b.isEmpty)
  if splits.isEmpty then [[]] else splits

/-! ### Index-filter characterization of slicing -/

/-- Elements of `l` whose index (offset by `c`) satisfies `p`. -/
def idxAux (p : Nat → Bool) : List α → Nat → List α
  | [], _ => []
  | x :: xs, c => if p c then x :: idxAux p xs (c + 1) else idxAux p xs (c + 1)

/-- Elements of `l` whose index satisfies `p`, in order. -/
def idxFilter (p : Nat → Bool) (l : List α) : List α := idxAux p l 0

theorem idxAux_congr {p q : Nat → Bool} (h : ∀ n, p n = q n) :
    ∀ (l : List α) (c : Nat), idxAux p l c = idxAux q l c := by
  intro l
  induction l with
  | nil => intro c; rfl
  | cons x xs ih =>
    intro c
    simp only [idxAux, h, ih]

theorem idxAux_shift (p : Nat → Bool) :
    ∀ (l : List α) (c : Nat), idxAux p l (c + 1) = idxAux (fun m => p (m + 1)) l c := by
  intro l
  induction l with
  | nil => intro c; rfl
  | cons x xs ih =>
    intro c
    simp only [idxAux, ih]

theorem beq_congr_nat {a b c d : Nat} (h : a = b ↔ c = d) : (a == b) = (c == d) := by
  by_cases h1 : a = b
  · simp [h1, h.mp h1]
  · have h2 : ¬ c = d := fun hc => h1 (h.mpr hc)
    simp [h1, h2]

theorem succ_mod_spec (m k : Nat) (hk : 1 ≤ k) :
    (m + 1) % k = if m % k + 1 = k then 0 else m % k + 1 := by
  have hr : m % k < k := Nat.mod_lt _ (by omega)
  rw [← Nat.mod_add_mod]
  by_cases h : m % k + 1 = k
  · rw [if_pos h, h, Nat.mod_self]
  · rw [if_neg h, Nat.mod_eq_of_lt (by omega)]

theorem succ_mod_zero_iff (m k : Nat) (hk : 1 ≤ k) :
    (m + 1) % k = 0 ↔ m % k = k - 1 := by
  have hr : m % k < k := Nat.mod_lt _ (by omega)
  rw [succ_mod_spec m k hk]
  by_cases h : m % k + 1 = k
  · rw [if_pos h]; omega
  · rw [if_neg h]; omega

theorem succ_mod_succ_iff (m k j : Nat) (hj : j + 1 < k) :
    (m + 1) % k = j + 1 ↔ m % k = j := by
  have hk : 1 ≤ k := by omega
  have hr : m % k < k := Nat.mod_lt _ (by omega)
  rw [succ_mod_spec m k hk]
  by_cases h : m % k + 1 = k
  · rw [if_pos h]; omega
  · rw [if_neg h]; omega

/-- The Python slice `l[c::k]` (for `c < k`) collects exactly the
elements whose index is congruent to `c` modulo `k`, in order. -/
theorem pySliceAux_eq_idxFilter (k : Nat) (hk : 1 ≤ k) :
    ∀ (l : List α) (c : Nat), c < k →
      pySliceAux k l c = idxFilter (fun n => n % k == c) l := by
  intro l
  induction l with
  | nil =>
    intro c _
    cases c <;> rfl
  | cons x xs ih =>
    intro c hc
    cases c with
    | zero =>
      have h0 : ((0 : Nat) % k == 0) = true := by
        simp [Nat.zero_mod]
      simp only [pySliceAux, idxFilter, idxAux, h0, if_pos]
      rw [idxAux_shift, idxAux_congr (fun m => beq_congr_nat (succ_mod_zero_iff m k hk))]
      exact congrArg _ (ih (k - 1) (by omega))
    | succ j =>
      have h0 : ((0 : Nat) % k == j + 1) = false := by
        simp [Nat.zero_mod]
      simp only [pySliceAux, idxFilter, idxAux, h0, Bool.false_eq_true, if_false]
      rw [idxAux_shift, idxAux_congr (fun m => beq_congr_nat (succ_mod_succ_iff m k j hc))]
      exact ih j (by omega)

theorem mem_idxAux {p : Nat → Bool} :
    ∀ (l : List α) (c : Nat) (x : α),
      x ∈ idxAux p l c ↔ ∃ n, ∃ hn : n < l.length, p (c + n) = true ∧ l.get ⟨n, hn⟩ = x := by
  intro l
  induction l with
  | nil =>
    intro c x
    simp [idxAux]
  | cons y ys ih =>
    intro c x
    constructor
    · intro hx
      by_cases hp : p c = true
      · simp only [idxAux, hp, if_pos, List.mem_cons] at hx
        rcases hx with rfl | hx
        · exact ⟨0, by simp, by simpa using hp, rfl⟩
        · rcases (ih (c + 1) x).mp hx with ⟨n, hn, hpn, hget⟩
          exact ⟨n + 1, by simpa using Nat.succ_lt_succ hn,
            by simpa [Nat.add_assoc, Nat.add_comm 1 n] using hpn, by simpa using hget⟩
      · simp only [idxAux, hp, if_neg, Bool.false_eq_true, if_false] at hx
        rcases (ih (c + 1) x).mp (by simpa [hp] using hx) with ⟨n, hn, hpn, hget⟩
        exact ⟨n + 1, by simpa using Nat.succ_lt_succ hn,
          by simpa [Nat.add_assoc, Nat.add_comm 1 n] using hpn, by simpa using hget⟩
    · rintro ⟨n, hn, hpn, hget⟩
      cases n with
      | zero =>
        simp only [Nat.add_zero] at hpn
        simp only [List.get] at hget
        simp [idxAux, hpn, hget]
      | succ m =>
        have hm : m < ys.length := by simpa using hn
        have hmem : x ∈ idxAux p ys (c + 1) :=
          (ih (c + 1) x).mpr ⟨m, hm,
            by simpa [Nat.add_assoc, Nat.add_comm 1 m] using hpn, by simpa using hget⟩
        by_cases hp : p c = true
        · simp [idxAux, hp, hmem]
        · simp [idxAux, hp, hmem]

theorem mem_idxFilter {p : Nat → Bool} (l : List α) (x : α) :
    x ∈ idxFilter p l ↔ ∃ n, ∃ hn : n < l.length, p n = true ∧ l.get ⟨n, hn⟩ = x := by
  simpa using mem_idxAux l 0 x

theorem idxAux_sublist (p : Nat → Bool) :
    ∀ (l : List α) (c : Nat), (idxAux p l c).Sublist l := by
  intro l
  induction l with
  | nil => intro c; simp [idxAux]
  | cons y ys ih =>
    intro c
    by_cases hp : p c = true
    · simpa [idxAux, hp] using (ih (c + 1)).cons₂ y
    · simpa [idxAux, hp] using (ih (c + 1)).cons y

theorem idxFilter_sublist (p : Nat → Bool) (l : List α) : (idxFilter p l).Sublist l :=
  idxAux_sublist p l 0

theorem idxFilter_mod_ne_nil_iff (k i : Nat) (hk : 1 ≤ k) (hi : i < k) (l : List α) :
    (idxFilter (fun n => n % k == i) l ≠ [] ↔ i < l.length) := by
  constructor
  · intro hne
    rcases List.exists_mem_of_ne_nil _ hne with ⟨x, hx⟩
    rcases (mem_idxFilter l x).mp hx with ⟨n, hn, hpn, _⟩
    have hmod : n % k = i := by simpa using hpn
    have : i ≤ n := hmod ▸ Nat.mod_le n k
    omega
  · intro hlen
    have hx : l.get ⟨i, hlen⟩ ∈ idxFilter (fun n => n % k == i) l :=
      (mem_idxFilter l _).mpr ⟨i, hlen, by simp [Nat.mod_eq_of_lt hi], rfl⟩
    exact List.ne_nil_of_mem hx

theorem range_filter_lt (N : Nat) :
    ∀ k, (List.range k).filter (fun i => decide (i < N)) = List.range (min k N) := by
  intro k
  induction k with
  | zero => simp
  | succ k ih =>
    rw [List.range_succ, List.filter_append, ih]
    by_cases h : k < N
    · have hmin : min (k + 1) N = min k N + 1 := by omega
      have hmin2 : min k N = k := by omega
      simp [h, hmin, hmin2, List.range_succ]
    · have hmin : min (k + 1) N = min k N := by omega
      simp [h, hmin]

/-- Full characterization of the Partitioner for a nonempty input and a
positive split count: the output is exactly the first `min K N` round-robin
batches, where batch `i` holds the documents at input positions `≡ i (mod K)`. -/
theorem create_pdf_splits_eq (docs : List String) (k : Int)
    (hk : 1 ≤ k) (hd : docs ≠ []) :
    create_pdf_splits docs k =
      (List.range (min k.toNat docs.length)).map
        (fun i => idxFilter (fun n => n % k.toNat == i) docs) := by
  have hK : 1 ≤ k.toNat := by omega
  have hmap : (List.range k.toNat).map (fun i => pySliceAux k.toNat docs i) =
      (List.range k.toNat).map (fun i => idxFilter (fun n => n % k.toNat == i) docs) := by
    apply List.map_congr_left
    intro i hi
    exact pySliceAux_eq_idxFilter k.toNat hK docs i (List.mem_range.mp hi)
  have hfc : ∀ i ∈ List.range k.toNat,
      (!(idxFilter (fun n => n % k.toNat == i) docs).isEmpty) =
        decide (i < docs.length) := by
    intro i hi
    have hiK : i < k.toNat := List.mem_range.mp hi
    by_cases h : i < docs.length
    · have hne := (idxFilter_mod_ne_nil_iff k.toNat i hK hiK docs).mpr h
      simp [h, List.isEmpty_iff, hne]
    · have hnil : idxFilter (fun n => n % k.toNat == i) docs = [] := by
        by_contra hcon
        exact h ((idxFilter_mod_ne_nil_iff k.toNat i hK hiK docs).mp hcon)
      simp [h, hnil]
  have hsplits : ((List.range k.toNat).map
        (fun i => pySliceAux k.toNat docs i)).filter (fun b => !b.isEmpty) =
      (List.range (min k.toNat docs.length)).map
        (fun i => idxFilter (fun n => n % k.toNat == i) docs) := by
    rw [hmap, List.filter_map]
    have hcomp : ((fun b : List String => !b.isEmpty) ∘
        (fun i => idxFilter (fun n => n % k.toNat == i) docs)) =
        fun i => !(idxFilter (fun n => n % k.toNat == i) docs).isEmpty := rfl
    rw [hcomp, List.filter_congr hfc, range_filter_lt docs.length k.toNat]
  have hne : (List.range (min k.toNat docs.length)).map
      (fun i => idxFilter (fun n => n % k.toNat == i) docs) ≠ [] := by
    have hNl : 1 ≤ docs.length := by
      cases docs with
      | nil => exact absurd rfl hd
      | cons a as => simp
    have : 1 ≤ min k.toNat docs.length := by omega
    simp only [ne_eq, List.map_eq_nil_iff, List.range_eq_nil]
    omega
  unfold create_pdf_splits
  simp only [hsplits]
  have : ((List.range (min k.toNat docs.length)).map
      (fun i => idxFilter (fun n => n % k.toNat == i) docs)).isEmpty = false := by
    cases hcase : (List.range (min k.toNat docs.length)).map
        (fun i => idxFilter (fun n => n % k.toNat == i) docs) with
    | nil => exact absurd hcase hne
    | cons a as => simp
  rw [this]
  simp

theorem idxFilter_mod_disjoint (K : Nat) (docs : List String) (hnd : docs.Nodup)
    {i j : Nat} (hij : i ≠ j) :
    ∀ x, x ∈ idxFilter (fun n => n % K == i) docs →
      x ∉ idxFilter (fun n => n % K == j) docs := by
  intro x hxi hxj
  rcases (mem_idxFilter docs x).mp hxi with ⟨n, hn, hpi, hgi⟩
  rcases (mem_idxFilter docs x).mp hxj with ⟨m, hm, hpj, hgj⟩
  have hpi2 : n % K = i := by simpa using hpi
  have hpj2 : m % K = j := by simpa using hpj
  have hget : docs.get ⟨n, hn⟩ = docs.get ⟨m, hm⟩ := by rw [hgi, hgj]
  have hnm : (⟨n, hn⟩ : Fin docs.length) = ⟨m, hm⟩ := (hnd.get_inj_iff).mp hget
  have heq : n = m := congrArg Fin.val hnm
  exact hij (by rw [← hpi2, ← hpj2, heq])

/-- C4 (amended): for every nonempty ordered list of distinct documents and
every partition count K ≥ 1, the Partitioner's output partitions are pairwise
disjoint, their flattening is a permutation of the input list, output
partition i contains exactly the documents at input positions congruent to
i modulo K (in their original relative order, each partition being a sublist
of the input), and no empty partition appears in the output.  (For the empty
document list the code instead returns the single empty partition, see the
counterexample and C5.) -/
theorem create_pdf_splits_round_robin (docs : List String) (k : Int)
    (hk : 1 ≤ k) (hd : docs ≠ []) (hnd : docs.Nodup) :
    List.Pairwise (fun a b => ∀ x, x ∈ a → x ∉ b) (create_pdf_splits docs k)
    ∧ List.Perm (create_pdf_splits docs k).flatten docs
    ∧ (∀ i (hi : i < (create_pdf_splits docs k).length) (x : String),
        x ∈ (create_pdf_splits docs k).get ⟨i, hi⟩ ↔
          ∃ n, ∃ hn : n < docs.length, n % k.toNat = i ∧ docs.get ⟨n, hn⟩ = x)
    ∧ (∀ p ∈ create_pdf_splits docs k, p.Sublist docs)
    ∧ (∀ p ∈ create_pdf_splits docs k, p ≠ []) := by
  have hK : 1 ≤ k.toNat := by omega
  have hchar := create_pdf_splits_eq docs k hk hd
  rw [hchar]
  have hpw : List.Pairwise (fun a b => ∀ x, x ∈ a → x ∉ b)
      ((List.range (min k.toNat docs.length)).map
        (fun i => idxFilter (fun n => n % k.toNat == i) docs)) := by
    rw [List.pairwise_map]
    exact (List.pairwise_lt_range _).imp
      (fun hlt => idxFilter_mod_disjoint k.toNat docs hnd (Nat.ne_of_lt hlt))
  refine ⟨hpw, ?_, ?_, ?_, ?_⟩
  · -- flattening is a permutation of the input
    have hsub : ∀ p ∈ (List.range (min k.toNat docs.length)).map
        (fun i => idxFilter (fun n => n % k.toNat == i) docs), p.Sublist docs := by
      intro p hp
      rcases List.mem_map.mp hp with ⟨i, _, rfl⟩
      exact idxFilter_sublist _ _
    have hnodupJ : ((List.range (min k.toNat docs.length)).map
        (fun i => idxFilter (fun n => n % k.toNat == i) docs)).flatten.Nodup := by
      rw [List.nodup_flatten]
      constructor
      · intro l hl
        exact (hsub l hl).nodup hnd
      · exact hpw.imp (fun h => fun a ha hb => h a ha hb)
    rw [List.perm_ext_iff_of_nodup hnodupJ hnd]
    intro x
    constructor
    · intro hx
      rcases List.mem_flatten.mp hx with ⟨b, hb, hxb⟩
      exact (hsub b hb).subset hxb
    · intro hx
      rcases List.mem_iff_get.mp hx with ⟨⟨n, hn⟩, hget⟩
      have hiK : n % k.toNat < k.toNat := Nat.mod_lt _ (by omega)
      have hiN : n % k.toNat < docs.length := by
        have := Nat.mod_le n k.toNat
        omega
      refine List.mem_flatten.mpr
        ⟨idxFilter (fun m => m % k.toNat == n % k.toNat) docs, ?_, ?_⟩
      · exact List.mem_map.mpr ⟨n % k.toNat, List.mem_range.mpr (by omega), rfl⟩
      · exact (mem_idxFilter docs x).mpr ⟨n, hn, by simp, hget⟩
  · -- output partition i is exactly the residue class i modulo K
    intro i hi x
    have hiM : i < min k.toNat docs.length := by simpa using hi
    have hget : ((List.range (min k.toNat docs.length)).map
        (fun j => idxFilter (fun n => n % k.toNat == j) docs)).get ⟨i, hi⟩ =
        idxFilter (fun n => n % k.toNat == i) docs := by
      simp [List.get_eq_getElem, List.getElem_map, List.getElem_range]
    rw [hget, mem_idxFilter]
    constructor
    · rintro ⟨n, hn, hpn, hgn⟩
      exact ⟨n, hn, by simpa using hpn, hgn⟩
    · rintro ⟨n, hn, hpn, hgn⟩
      exact ⟨n, hn, by simpa using hpn, hgn⟩
  · -- relative order within each partition is preserved
    intro p hp
    rcases List.mem_map.mp hp with ⟨i, _, rfl⟩
    exact idxFilter_sublist _ _
  · -- no empty partitions in the output
    intro p hp
    rcases List.mem_map.mp hp with ⟨i, hi, rfl⟩
    have hiM : i < min k.toNat docs.length := List.mem_range.mp hi
    exact (idxFilter_mod_ne_nil_iff k.toNat i hK (by omega) docs).mpr (by omega)

/-- C4 counterexample: with the empty document list and K = 1 the claim as
stated fails: the output is the single empty partition, so an empty
partition does appear in the output. -/
theorem create_pdf_splits_empty_docs_has_empty_partition :
    create_pdf_splits ([] : List String) 1 = [[]]
    ∧ [] ∈ create_pdf_splits ([] : List String) 1 := by
  constructor <;> decide

/-- Witness for `create_pdf_splits_round_robin`, at the spec's scenario:
3 documents and K = 2. -/
theorem create_pdf_splits_round_robin_witness :
    List.Pairwise (fun a b => ∀ x, x ∈ a → x ∉ b)
      (create_pdf_splits ["d0.pdf", "d1.pdf", "d2.pdf"] 2)
    ∧ List.Perm (create_pdf_splits ["d0.pdf", "d1.pdf", "d2.pdf"] 2).flatten
      ["d0.pdf", "d1.pdf", "d2.pdf"]
    ∧ (∀ p ∈ create_pdf_splits ["d0.pdf", "d1.pdf", "d2.pdf"] 2, p ≠ []) :=
  have h := create_pdf_splits_round_robin ["d0.pdf", "d1.pdf", "d2.pdf"] 2
    (by decide) (by decide) (by decide)
  ⟨h.1, h.2.1, h.2.2.2.2⟩

/-- C5: with K ≤ 0 or an empty document list the Partitioner returns exactly
one partition, which is empty (and, being a total function, never fails). -/
theorem create_pdf_splits_degenerate (docs : List String) (k : Int)
    (h : k ≤ 0 ∨ docs = []) :
    create_pdf_splits docs k = [[]] := by
  rcases h with hk | hdocs
  · have h0 : k.toNat = 0 := by omega
    simp [create_pdf_splits, h0]
  · subst hdocs
    have hnil : ∀ i, pySliceAux k.toNat ([] : List String) i = [] := by
      intro i
      cases i <;> rfl
    simp [create_pdf_splits, hnil]

/-- Witness for `create_pdf_splits_degenerate`: a negative split count and a
nonempty document list yield the single empty partition. -/
theorem create_pdf_splits_degenerate_witness :
    create_pdf_splits ["a.pdf"] (-2) = [[]] :=
  create_pdf_splits_degenerate ["a.pdf"] (-2) (Or.inl (by decide))

/-! ## Collection Registrar: `register_vector_db` (lines 19-51)

Python:
```
models = client.models.list()
matching_model = next(
    (m for m in models if m.provider_resource_id == embed_model_id), None
)
if not matching_model: raise ValueError(...)
if matching_model.model_type != "embedding": raise ValueError(...)
embedding_dimension = matching_model.metadata["embedding_dimension"]
_ = client.vector_dbs.register(vector_db_id=..., embedding_model=...,
                               embedding_dimension=..., provider_id="milvus")
```
-/

/-- An entry of the llama-stack model registry, with the fields
`register_vector_db` reads.  `metadata_embedding_dimension` embeds
`metadata["embedding_dimension"]` of an embedding model. -/
structure RegModel where
  provider_resource_id : String
  identifier : String
  model_type : String
  metadata_embedding_dimension : Nat
deriving DecidableEq, Repr

/-- The vector store's registration table, keyed by collection identifier,
holding each collection's declared embedding dimension. -/
structure VStore where
  registered : List (String × Nat)
deriving DecidableEq, Repr

/-- Modelled from the spec: the llama-stack backend call
`client.vector_dbs.register` (code outside this repository) registers the
Collection under its identifier with the given dimension against the
configured backend and does not raise; repeated registration keeps the
collection well-defined (a keyed upsert).  The call's `embedding_model` and
`provider_id="milvus"` arguments do not affect the claims and are omitted. -/
def vector_dbs_register (s : VStore) (vector_db_id : String) (dim : Nat) : VStore :=
  ⟨(vector_db_id, dim) :: s.registered.filter (fun p => !(p.1 == vector_db_id))⟩

/-- The declared embedding dimension of a collection in the store. -/
def VStore.dimOf (s : VStore) (vector_db_id : String) : Option Nat :=
  (s.registered.find? (fun p => p.1 == vector_db_id)).map (fun p => p.2)

/-- `register_vector_db` from the source: resolve the first registry model
whose `provider_resource_id` matches, raise (`Except.error`) when there is no
match or the match is not an embedding model, otherwise register the
collection with the dimension from the model's metadata. -/
def register_vector_db (models : List RegModel)
    (vector_db_id : String) (embed_model_id : String) (s : VStore) :
    Except String VStore :=
  match models.find? (fun m => m.provider_resource_id == embed_model_id) with
  | none => Except.error ("Model with ID " ++ embed_model_id ++ " not found on LlamaStack server.")
  | some m =>
    if m.model_type != "embedding" then
      Except.error ("Model " ++ embed_model_id ++ " is not an embedding model")
    else
      Except.ok (vector_dbs_register s vector_db_id m.metadata_embedding_dimension)

theorem vector_dbs_register_idem (s : VStore) (vid : String) (dim : Nat) :
    vector_dbs_register (vector_dbs_register s vid dim) vid dim =
      vector_dbs_register s vid dim := by
  unfold vector_dbs_register
  simp [List.filter_filter]

theorem register_vector_db_eq_none {models : List RegModel}
    {vector_db_id embed_model_id : String} {s : VStore}
    (hfind : models.find? (fun m => m.provider_resource_id == embed_model_id) = none) :
    register_vector_db models vector_db_id embed_model_id s =
      Except.error ("Model with ID " ++ embed_model_id ++ " not found on LlamaStack server.") := by
  unfold register_vector_db
  rw [hfind]

theorem register_vector_db_eq_some {models : List RegModel}
    {vector_db_id embed_model_id : String} {s : VStore} {m : RegModel}
    (hfind : models.find? (fun mm => mm.provider_resource_id == embed_model_id) = some m) :
    register_vector_db models vector_db_id embed_model_id s =
      (if m.model_type != "embedding" then
        Except.error ("Model " ++ embed_model_id ++ " is not an embedding model")
      else
        Except.ok (vector_dbs_register s vector_db_id m.metadata_embedding_dimension)) := by
  unfold register_vector_db
  rw [hfind]

/-- C7: a second Registrar call with the same collection and model
identifiers neither raises nor changes the registered state — in particular
the collection's registered embedding dimension is unchanged. -/
theorem register_vector_db_idempotent (models : List RegModel)
    (vector_db_id embed_model_id : String) (s s' : VStore)
    (h : register_vector_db models vector_db_id embed_model_id s = Except.ok s') :
    register_vector_db models vector_db_id embed_model_id s' = Except.ok s'
    ∧ ∀ s'', register_vector_db models vector_db_id embed_model_id s' = Except.ok s'' →
        s''.dimOf vector_db_id = s'.dimOf vector_db_id := by
  cases hfind : models.find? (fun m => m.provider_resource_id == embed_model_id) with
  | none =>
    rw [register_vector_db_eq_none hfind] at h
    exact absurd h (by simp)
  | some m =>
    rw [register_vector_db_eq_some hfind] at h
    by_cases htype : m.model_type != "embedding"
    · rw [if_pos htype] at h; exact absurd h (by simp)
    · rw [if_neg htype] at h
      have hs' : s' = vector_dbs_register s vector_db_id m.metadata_embedding_dimension := by
        cases h; rfl
      constructor
      · rw [register_vector_db_eq_some hfind, if_neg htype, hs', vector_dbs_register_idem]
      · intro s'' h2
        rw [register_vector_db_eq_some hfind, if_neg htype] at h2
        have hs'' : s'' = vector_dbs_register s' vector_db_id m.metadata_embedding_dimension := by
          cases h2; rfl
        rw [hs'', hs', vector_dbs_register_idem]

/-- Witness for `register_vector_db_idempotent` at a concrete registry and
an initially empty store. -/
theorem register_vector_db_idempotent_witness :
    register_vector_db
      [⟨"granite-embed", "granite-id", "embedding", 768⟩] "sreips_vector_id"
      "granite-embed" ⟨[("sreips_vector_id", 768)]⟩ =
      Except.ok ⟨[("sreips_vector_id", 768)]⟩ :=
  (register_vector_db_idempotent
    [⟨"granite-embed", "granite-id", "embedding", 768⟩] "sreips_vector_id"
    "granite-embed" ⟨[]⟩ ⟨[("sreips_vector_id", 768)]⟩ rfl).1

/-- C8: the Registrar raises exactly when no registry model matches the
requested identifier or the (first) matching model is not an embedding
model; otherwise it registers the collection with the dimension taken from
the matched model's metadata. -/
theorem register_vector_db_error_iff (models : List RegModel)
    (vector_db_id embed_model_id : String) (s : VStore) :
    ((∃ msg, register_vector_db models vector_db_id embed_model_id s = Except.error msg) ↔
      (∀ m, models.find? (fun mm => mm.provider_resource_id == embed_model_id) = some m →
        m.model_type ≠ "embedding"))
    ∧ (∀ m, models.find? (fun mm => mm.provider_resource_id == embed_model_id) = some m →
        m.model_type = "embedding" →
        register_vector_db models vector_db_id embed_model_id s =
          Except.ok (vector_dbs_register s vector_db_id m.metadata_embedding_dimension)) := by
  cases hfind : models.find? (fun m => m.provider_resource_id == embed_model_id) with
  | none =>
    constructor
    · constructor
      · intro _ m hm
        exact Option.noConfusion hm
      · intro _
        exact ⟨_, register_vector_db_eq_none hfind⟩
    · intro m hm
      exact Option.noConfusion hm
  | some m =>
    constructor
    · constructor
      · rintro ⟨msg, hmsg⟩ m' hm'
        have hmm : m' = m := (Option.some.inj hm').symm
        subst hmm
        by_cases htype : m'.model_type != "embedding"
        · simpa using htype
        · rw [register_vector_db_eq_some hfind, if_neg htype] at hmsg
          exact absurd hmsg (by simp)
      · intro hall
        have hne : m.model_type ≠ "embedding" := hall m rfl
        have htype : (m.model_type != "embedding") = true := by
          simpa using hne
        rw [register_vector_db_eq_some hfind, if_pos htype]
        exact ⟨_, rfl⟩
    · intro m' hm' htype
      have hmm : m' = m := (Option.some.inj hm').symm
      subst hmm
      rw [register_vector_db_eq_some hfind, if_neg (by simpa using htype)]

/-- Witness for `register_vector_db_error_iff`: at a concrete registry the
error case holds for a non-embedding model and the success case registers
the metadata dimension. -/
theorem register_vector_db_error_iff_witness :
    (∃ msg, register_vector_db [⟨"llm-model", "llm-id", "llm", 0⟩]
      "sreips_vector_id" "llm-model" ⟨[]⟩ = Except.error msg)
    ∧ register_vector_db [⟨"granite-embed", "granite-id", "embedding", 768⟩]
      "sreips_vector_id" "granite-embed" ⟨[]⟩ =
        Except.ok ⟨[("sreips_vector_id", 768)]⟩ := by
  constructor
  · exact (register_vector_db_error_iff [⟨"llm-model", "llm-id", "llm", 0⟩]
      "sreips_vector_id" "llm-model" ⟨[]⟩).1.mpr
      (by intro m hm; cases hm; decide)
  · exact (register_vector_db_error_iff [⟨"granite-embed", "granite-id", "embedding", 768⟩]
      "sreips_vector_id" "granite-embed" ⟨[]⟩).2
      ⟨"granite-embed", "granite-id", "embedding", 768⟩ (by decide) rfl

/-! ## Conversion-Chunk-Embed Worker: `docling_convert` (lines 128-295)

The external collaborators are explicit parameters:

* `conv : String → ConvOutcome` — the docling conversion of one staged PDF,
* `chunksOf : String → List (Option String)` — the `HybridChunker` output
  for a converted document, each chunk given by its `contextualize`d text
  (`none` embeds a None chunk),
* `embed : String → Option (List Int)` — `embed_text` on one chunk
  (`none` embeds an exception raised while embedding); the numeric values
  of the vector are abstracted as integers, only its length matters here,
* `dim : Nat` — `embedding_model.get_sentence_embedding_dimension()`.
-/

/-- Docling conversion status of a yielded result: `SUCCESS` or
`PARTIAL_SUCCESS` (a failed conversion never yields a result here, see
`ConvOutcome.failure`). -/
inductive ConvStatus where
  | success
  | semiSuccess
deriving DecidableEq, Repr

/-- Modelled from the documented semantics of the external
`DocumentConverter.convert_all(input_pdfs, raises_on_error=True)` (code
outside this repository): the call returns a lazy stream of conversion
results; a document whose conversion fails makes the stream raise
`ConversionError` when iteration reaches it, while other documents yield a
`ConversionResult` with a status and a possibly-None document. -/
inductive ConvOutcome where
  | failure
  | converted (status : ConvStatus) (document : Option String)

/-- The `rglob("*.pdf")` name test: the file name ends in `.pdf`.
Implemented over the character list so that it is kernel-executable. -/
def endsWithPdf (s : String) : Bool :=
  s.data.reverse.take 4 == ['f', 'd', 'p', '.']

/-- Python's blankness test `not raw_chunk or not raw_chunk.strip()`: the
string is empty or consists of whitespace only. -/
def pyBlank (s : String) : Bool :=
  s.data.all Char.isWhitespace

/-- `pathlib.Path.stem` for the flat `*.pdf` file names in play: the file
name without its `.pdf` suffix.  This is the `document_id`/`file_name`
stored in chunk metadata (`conv_res.input.file.stem`). -/
def stem (s : String) : String :=
  if endsWithPdf s then String.mk (s.data.take (s.data.length - 4)) else s

/-- A chunk as submitted to `client.vector_io.insert`: its contextualized
content, its embedding and the owning document identifier.  The fresh
`chunk_id` (a UUID) and the token counts in the metadata do not affect the
claims; the always-true In-Python checks `isinstance(embedding, list)` and
`isinstance(metadata, dict)` hold by construction here. -/
structure Chunk where
  content : String
  embedding : List Int
  document_id : String
deriving DecidableEq, Repr

/-- The per-chunk loop of `process_and_insert_embeddings` (lines 188-231):
skip None chunks, skip chunks whose contextualized text is empty or
whitespace-only, skip chunks whose embedding raises, skip chunks whose
embedding length differs from the model dimension; otherwise build the
chunk record. -/
def buildChunks (embed : String → Option (List Int)) (dim : Nat)
    (docId : String) (rawChunks : List (Option String)) : List Chunk :=
  rawChunks.filterMap (fun oc =>
    match oc with
    | none => none
    | some raw =>
      if pyBlank raw then none
      else
        match embed raw with
        | none => none
        | some e =>
          if e.length != dim then none
          else some ⟨raw, e, docId⟩)

/-- The sanity-check filter over `chunks_with_embedding` (lines 234-241):
only chunks with an embedding of the model dimension and non-blank content
are kept. -/
def validFilter (dim : Nat) (cs : List Chunk) : List Chunk :=
  cs.filter (fun c => c.embedding.length == dim && !(pyBlank c.content))

/-- Processing of one successfully converted document (lines 183-251): build
the chunk records, filter the fully valid ones, skip the document when none
remain, otherwise insert them all as one batch.  The result is the list of
chunks inserted for this document. -/
def processDoc (embed : String → Option (List Int)) (dim : Nat)
    (docId : String) (rawChunks : List (Option String)) : List Chunk :=
  let cs := buildChunks embed dim docId rawChunks
  let valid := validFilter dim cs
  if valid.isEmpty then [] else valid

/-- `process_and_insert_embeddings` (lines 165-253) over the lazy
`convert_all` stream: documents are processed in order; a conversion result
with non-SUCCESS status or a None document is skipped; a failed conversion
raises out of the iteration (because of `raises_on_error=True`), so
processing stops there — documents already processed keep their inserted
chunks.  Returns the inserted chunks and whether the iteration completed
without raising. -/
def processDocs (conv : String → ConvOutcome)
    (chunksOf : String → List (Option String))
    (embed : String → Option (List Int)) (dim : Nat) :
    List String → List Chunk × Bool
  | [] => ([], true)
  | d :: rest =>
    match conv d with
    | ConvOutcome.failure => ([], false)
    | ConvOutcome.converted st doc =>
      let ins := match st, doc with
        | ConvStatus.success, some t => processDoc embed dim (stem d) (chunksOf t)
        | ConvStatus.success, none => []
        | ConvStatus.semiSuccess, _ => []
      let r := processDocs conv chunksOf embed dim rest
      (ins ++ r.1, r.2)

deriving instance DecidableEq for Except

/-- The observable result of one Worker run: the chunks that reached the
vector store, and the final outcome (`Except.error` when the component
raised). -/
structure WorkerRun where
  inserted : List Chunk
  outcome : Except String Unit
deriving DecidableEq, Repr

/-- `docling_convert` from the source (main logic, lines 256-295): collect
the PDFs of the staging directory (`input_path.rglob("*.pdf")`, given as
`staging` with byte sizes), keep the non-empty ones, raise `RuntimeError`
when none remain, otherwise convert and insert.  Note that the `pdf_split`
parameter — the Worker's assigned partition — is accepted but never read,
exactly as in the source. -/
def docling_convert (conv : String → ConvOutcome)
    (chunksOf : String → List (Option String))
    (embed : String → Option (List Int)) (dim : Nat)
    (staging : List (String × Nat)) (pdf_split : List String) : WorkerRun :=
  let input_pdfs := (staging.filter (fun p => endsWithPdf p.1 && decide (0 < p.2))).map
    (fun p => p.1)
  if input_pdfs.isEmpty then
    ⟨[], Except.error "No valid PDFs found in input_path for processing."⟩
  else
    let r := processDocs conv chunksOf embed dim input_pdfs
    ⟨r.1, if r.2 then Except.ok () else Except.error "ConversionError"⟩

theorem mem_validFilter_dim {dim : Nat} {cs : List Chunk} {c : Chunk}
    (h : c ∈ validFilter dim cs) : c.embedding.length = dim := by
  unfold validFilter at h
  have h2 := (List.mem_filter.mp h).2
  simp only [Bool.and_eq_true, beq_iff_eq] at h2
  exact h2.1

theorem mem_processDoc_dim {embed : String → Option (List Int)} {dim : Nat}
    {docId : String} {rawChunks : List (Option String)} {c : Chunk}
    (h : c ∈ processDoc embed dim docId rawChunks) : c.embedding.length = dim := by
  unfold processDoc at h
  by_cases hemp : (validFilter dim (buildChunks embed dim docId rawChunks)).isEmpty
  · rw [if_pos hemp] at h
    cases h
  · rw [if_neg hemp] at h
    exact mem_validFilter_dim h

theorem mem_processDocs_dim (conv : String → ConvOutcome)
    (chunksOf : String → List (Option String))
    (embed : String → Option (List Int)) (dim : Nat) :
    ∀ (docs : List String) (c : Chunk),
      c ∈ (processDocs conv chunksOf embed dim docs).1 → c.embedding.length = dim := by
  intro docs
  induction docs with
  | nil =>
    intro c h
    cases h
  | cons d rest ih =>
    intro c h
    unfold processDocs at h
    cases hconv : conv d with
    | failure =>
      rw [hconv] at h
      cases h
    | converted st doc =>
      rw [hconv] at h
      simp only [List.mem_append] at h
      rcases h with h | h
      · cases st with
        | success =>
          cases doc with
          | none => cases h
          | some t => exact mem_processDoc_dim h
        | semiSuccess => cases h
      · exact ih c h

theorem docling_convert_inserted_eq (conv : String → ConvOutcome)
    (chunksOf : String → List (Option String))
    (embed : String → Option (List Int)) (dim : Nat)
    (staging : List (String × Nat)) (pdf_split : List String) :
    (docling_convert conv chunksOf embed dim staging pdf_split).inserted =
      (if ((staging.filter (fun p => endsWithPdf p.1 && decide (0 < p.2))).map
          (fun p => p.1)).isEmpty then []
      else (processDocs conv chunksOf embed dim
        ((staging.filter (fun p => endsWithPdf p.1 && decide (0 < p.2))).map
          (fun p => p.1))).1) := by
  unfold docling_convert
  by_cases h : ((staging.filter (fun p => endsWithPdf p.1 && decide (0 < p.2))).map
      (fun p => p.1)).isEmpty
  · rw [if_pos h]
    simp [h]
  · rw [if_neg h]
    simp [h]

/-- C6 (amended): every chunk a Worker run inserts into the store has an
embedding whose length equals the Worker's own embedding-model dimension
(`embedding_model.get_sentence_embedding_dimension()`); chunks failing that
check are discarded before insertion.  This coincides with the Collection's
declared dimension only when the registry metadata dimension agrees with
the worker model's dimension (see the counterexample). -/
theorem docling_convert_inserted_dim (conv : String → ConvOutcome)
    (chunksOf : String → List (Option String))
    (embed : String → Option (List Int)) (dim : Nat)
    (staging : List (String × Nat)) (pdf_split : List String) (c : Chunk)
    (hc : c ∈ (docling_convert conv chunksOf embed dim staging pdf_split).inserted) :
    c.embedding.length = dim := by
  rw [docling_convert_inserted_eq] at hc
  by_cases h : ((staging.filter (fun p => endsWithPdf p.1 && decide (0 < p.2))).map
      (fun p => p.1)).isEmpty
  · rw [if_pos h] at hc
    cases hc
  · rw [if_neg h] at hc
    exact mem_processDocs_dim conv chunksOf embed dim _ c hc

/-! ### Concrete scenario instances -/

/-- A conversion world in which every document converts successfully to the
text "T". -/
def demoConv : String → ConvOutcome := fun _ => ConvOutcome.converted ConvStatus.success (some "T")

/-- A chunker world producing the single chunk "c" for any document. -/
def demoChunks : String → List (Option String) := fun _ => [some "c"]

/-- An embedder producing a 1-dimensional vector for any text. -/
def demoEmbed : String → Option (List Int) := fun _ => some [1]

/-- The spec scenario's staging directory: 3 downloaded documents. -/
def demoStaging3 : List (String × Nat) := [("d0.pdf", 1), ("d1.pdf", 1), ("d2.pdf", 1)]

/-- C1, evaluated at the spec's own scenario (3 documents, K = 2): the
partitions are [d0, d2] and [d1], yet the Worker invoked for partition 1
inserts chunks for d0, d1 and d2 — its `pdf_split` parameter is accepted
but never read (last conjunct), so every Worker processes the whole staging
directory, not its own partition. -/
theorem docling_convert_ignores_partition :
    create_pdf_splits ["d0.pdf", "d1.pdf", "d2.pdf"] 2 = [["d0.pdf", "d2.pdf"], ["d1.pdf"]]
    ∧ (docling_convert demoConv demoChunks demoEmbed 1 demoStaging3
        ["d1.pdf"]).inserted.map Chunk.document_id = ["d0", "d1", "d2"]
    ∧ "d0" ∉ ["d1.pdf"].map stem
    ∧ ∀ split split', docling_convert demoConv demoChunks demoEmbed 1 demoStaging3 split =
        docling_convert demoConv demoChunks demoEmbed 1 demoStaging3 split' := by
  refine ⟨by decide, by decide, by decide, fun split split' => rfl⟩

/-- A conversion world in which "a.pdf" fails to convert and every other
document converts successfully. -/
def convFailA : String → ConvOutcome := fun f =>
  if f == "a.pdf" then ConvOutcome.failure
  else ConvOutcome.converted ConvStatus.success (some "T")

/-- A conversion world in which "a.pdf" yields a None document and every
other document converts successfully. -/
def convNullA : String → ConvOutcome := fun f =>
  if f == "a.pdf" then ConvOutcome.converted ConvStatus.success none
  else ConvOutcome.converted ConvStatus.success (some "T")

/-- C2, evaluated at a two-document partition where the first document's
conversion fails: because `convert_all` is called with
`raises_on_error=True`, the failure raises out of the result iteration, the
Worker errors, and the healthy sibling document "b.pdf" gets nothing
inserted (first two conjuncts) — although without the failing sibling its
chunk is inserted (third conjunct), and a None conversion result is indeed
skipped without aborting the partition (fourth conjunct). -/
theorem conversion_failure_aborts_partition :
    (docling_convert convFailA demoChunks demoEmbed 1 [("a.pdf", 1), ("b.pdf", 1)]
      ["a.pdf", "b.pdf"]).inserted = []
    ∧ (docling_convert convFailA demoChunks demoEmbed 1 [("a.pdf", 1), ("b.pdf", 1)]
      ["a.pdf", "b.pdf"]).outcome = Except.error "ConversionError"
    ∧ (docling_convert demoConv demoChunks demoEmbed 1 [("b.pdf", 1)]
      ["b.pdf"]).inserted = [⟨"c", [1], "b"⟩]
    ∧ (docling_convert convNullA demoChunks demoEmbed 1 [("a.pdf", 1), ("b.pdf", 1)]
      ["a.pdf", "b.pdf"]).inserted = [⟨"c", [1], "b"⟩] := by
  refine ⟨by decide, by decide, by decide, by decide⟩

/-- C10: a Worker whose staging directory holds no non-empty PDF raises
RuntimeError before any conversion or insertion — for every conversion
world and every assigned partition, including the empty one. -/
theorem docling_convert_no_valid_pdfs_errors (conv : String → ConvOutcome)
    (chunksOf : String → List (Option String))
    (embed : String → Option (List Int)) (dim : Nat)
    (staging : List (String × Nat)) (pdf_split : List String)
    (h : ∀ p ∈ staging, ¬(endsWithPdf p.1 = true ∧ 0 < p.2)) :
    docling_convert conv chunksOf embed dim staging pdf_split =
      ⟨[], Except.error "No valid PDFs found in input_path for processing."⟩ := by
  have hfil : staging.filter (fun p => endsWithPdf p.1 && decide (0 < p.2)) = [] := by
    rw [List.filter_eq_nil_iff]
    intro p hp
    simp only [Bool.and_eq_true, decide_eq_true_eq]
    exact h p hp
  unfold docling_convert
  rw [hfil]
  simp

/-- Witness for `docling_convert_no_valid_pdfs_errors`: an empty document
set — whose single partition is the empty one — makes the Worker raise. -/
theorem docling_convert_no_valid_pdfs_errors_witness :
    docling_convert demoConv demoChunks demoEmbed 1 [("notes.txt", 3)] [] =
      ⟨[], Except.error "No valid PDFs found in input_path for processing."⟩ :=
  docling_convert_no_valid_pdfs_errors demoConv demoChunks demoEmbed 1
    [("notes.txt", 3)] [] (by decide)

/-- C9: a document whose converted text is chunked into one
empty-or-whitespace-only chunk and one valid chunk gets exactly one chunk
inserted — the valid one — whichever order the chunker yields them in. -/
theorem empty_chunk_discarded (embed : String → Option (List Int)) (dim : Nat)
    (docId w v : String) (e : List Int)
    (hw : pyBlank w = true) (hv : pyBlank v = false) (he : embed v = some e)
    (hlen : e.length = dim) :
    processDoc embed dim docId [some w, some v] = [⟨v, e, docId⟩]
    ∧ processDoc embed dim docId [some v, some w] = [⟨v, e, docId⟩] := by
  have hne : (e.length != dim) = false := by
    simp [hlen]
  constructor <;>
    simp [processDoc, buildChunks, validFilter, hw, hv, he, hne, hlen,
      List.filterMap, List.filter]

/-- Witness for `empty_chunk_discarded` at a concrete whitespace chunk and
a concrete valid chunk. -/
theorem empty_chunk_discarded_witness :
    processDoc (fun _ => some [1]) 1 "doc" [some "", some "hello"] =
      [⟨"hello", [1], "doc"⟩] :=
  (empty_chunk_discarded (fun _ => some [1]) 1 "doc" "" "hello" [1]
    (by decide) (by decide) rfl (by decide)).1

/-- Witness for `docling_convert_inserted_dim` at a concrete run with one
inserted chunk. -/
theorem docling_convert_inserted_dim_witness :
    (⟨"c", [1], "d0"⟩ : Chunk).embedding.length = 1 :=
  docling_convert_inserted_dim demoConv demoChunks demoEmbed 1 demoStaging3 []
    ⟨"c", [1], "d0"⟩ (by decide)

/-- A model registry whose metadata declares dimension 4 for the embedding
model, while the worker-side sentence-transformer for the same identifier
produces 3-dimensional vectors. -/
def mismatchModels : List RegModel := [⟨"granite-embed", "granite-id", "embedding", 4⟩]

/-- An embedder producing 3-dimensional vectors. -/
def embedDim3 : String → Option (List Int) := fun _ => some [1, 2, 3]

/-- C6 counterexample: the Worker validates chunk embeddings against its own
model's reported dimension, not against the Collection's registered
dimension.  With registry metadata declaring dimension 4 while the worker
model produces (and reports) dimension 3, a chunk of embedding length 3 is
inserted even though the Collection's declared dimension is 4. -/
theorem inserted_chunk_dim_differs_from_collection :
    register_vector_db mismatchModels "sreips_vector_id" "granite-embed" ⟨[]⟩ =
      Except.ok ⟨[("sreips_vector_id", 4)]⟩
    ∧ VStore.dimOf ⟨[("sreips_vector_id", 4)]⟩ "sreips_vector_id" = some 4
    ∧ (⟨"c", [1, 2, 3], "a"⟩ : Chunk) ∈
        (docling_convert demoConv demoChunks embedDim3 3 [("a.pdf", 1)] ["a.pdf"]).inserted
    ∧ (⟨"c", [1, 2, 3], "a"⟩ : Chunk).embedding.length ≠ 4 := by
  refine ⟨rfl, rfl, by decide, by decide⟩

/-! ## Pipeline Orchestrator: `docling_convert_pipeline` (lines 299-384)

Kubeflow Pipelines derives task ordering from data dependencies (a task
consuming another task's output runs after it) and from explicit
`.after(...)` calls; the pipeline source contains no `.after` call.  The
data edges in the source are:

* `create_pdf_splits(input_path=import_task.output, ...)` (line 339),
* `docling_convert(input_path=import_task.output, pdf_split=pdf_split, ...)`
  where `pdf_split` iterates over `pdf_splits.output` (lines 343-378),
  in both the GPU (`dsl.If`) and the CPU (`dsl.Else`) branch.

`register_task` has no output consumed by any other task and is never
named in an `.after`. -/

/-- The tasks of `docling_convert_pipeline`. -/
inductive PTask where
  | register
  | importPdfs
  | createSplits
  | convertGpu
  | convertCpu
deriving DecidableEq, Repr

/-- The direct dependency edges of the pipeline as written: exactly the
data edges listed above.  `directDep t u` holds when task `t` consumes an
output of task `u`. -/
def directDep : PTask → PTask → Bool
  | PTask.createSplits, PTask.importPdfs => true
  | PTask.convertGpu, PTask.importPdfs => true
  | PTask.convertGpu, PTask.createSplits => true
  | PTask.convertCpu, PTask.importPdfs => true
  | PTask.convertCpu, PTask.createSplits => true
  | _, _ => false

/-- All pipeline tasks. -/
def allTasks : List PTask :=
  [PTask.register, PTask.importPdfs, PTask.createSplits, PTask.convertGpu, PTask.convertCpu]

/-- Bounded transitive closure of `directDep`. -/
def depAux : Nat → PTask → PTask → Bool
  | 0, t, u => directDep t u
  | n + 1, t, u => directDep t u || allTasks.any (fun v => directDep t v && depAux n v u)

/-- `dependsOn t u`: task `t` transitively depends on task `u` in the
pipeline graph (depth 4 suffices for 5 tasks). -/
def dependsOn (t u : PTask) : Bool := depAux 4 t u

/-- Modelled from the documented semantics of the external Kubeflow
Pipelines scheduler (code outside this repository): a task executes once
all its upstream dependencies have succeeded; it is prevented from running
only when some (transitive) upstream dependency failed. -/
def runsDespiteFailed (failed : PTask → Bool) (t : PTask) : Bool :=
  allTasks.all (fun u => !(dependsOn t u && failed u))

/-- C3, evaluated on the pipeline graph: the Workers (`docling_convert`, in
both resource profiles) do depend on the Fetcher and the Partitioner, but
have no dependency — direct or transitive — on the Registrar
(`register_vector_db`).  Consequently, when the Registrar fails, the
scheduler still runs both Worker variants: nothing prevents a Worker from
starting before the Registrar has completed successfully. -/
theorem worker_has_no_registrar_dependency :
    dependsOn PTask.convertCpu PTask.importPdfs = true
    ∧ dependsOn PTask.convertCpu PTask.createSplits = true
    ∧ dependsOn PTask.convertGpu PTask.importPdfs = true
    ∧ dependsOn PTask.convertGpu PTask.createSplits = true
    ∧ dependsOn PTask.convertCpu PTask.register = false
    ∧ dependsOn PTask.convertGpu PTask.register = false
    ∧ runsDespiteFailed (fun t => t == PTask.register) PTask.convertCpu = true
    ∧ runsDespiteFailed (fun t => t == PTask.register) PTask.convertGpu = true := by
  decide
